import Mathlib

/-!
Shallow embedding of the computational core of the CNB Taylor-rule frontend
(src/frontend/app.js): the Taylor recurrence calculator, the date-window
filter, the fit-statistics engine, the debounced update scheduler and the
last-value label declutter passes, together with theorems settling the
specified properties.  JS numbers are modelled by exact rationals (reals
where a square root occurs); a JS null numeric cell is Option.none.
-/

namespace CnbTaylor

/-- JS Math.round on a rational: nearest integer, ties toward positive infinity. -/
def jsRound (q : ℚ) : ℤ := ⌊q + 1 / 2⌋

/-- JS Math.round on a real argument (used by the statistics engine, where a
square root occurs). -/
noncomputable def jsRoundR (x : ℝ) : ℤ := ⌊x + 1 / 2⌋

/-- Rounding to 4 decimals: Math.round(val * 10000) / 10000 (app.js line 137). -/
def round4 (q : ℚ) : ℚ := (jsRound (q * 10000) : ℚ) / 10000

/-- Rounding to 3 decimals: Math.round(v * 1000) / 1000 (app.js lines 169-172). -/
noncomputable def round3R (x : ℝ) : ℝ := (jsRoundR (x * 1000) : ℝ) / 1000

/-- The in-memory dataset (state.raw): parallel nullable monthly series,
index-aligned per the data model. -/
structure Dataset where
  dates : List String
  actual_rate : List (Option ℚ)
  cpi : List (Option ℚ)
  gdp : List (Option ℚ)
  pistar : List (Option ℚ)

/-- Body of the calculateTaylor loop (app.js lines 119-138) at index i.
The arithmetic reading of data.pistar coerces a null inflation target to 0,
exactly as JS numeric coercion does in the expression alpha * (pi - pistar);
only cpi and gdp are null-checked by the code. -/
def taylorAt (data : Dataset) (rho rstar alpha beta : ℚ) (i : ℕ) : Option ℚ :=
  match data.cpi.getD i none, data.gdp.getD i none with
  | some pi, some g =>
    let pistar : ℚ := (data.pistar.getD i none).getD 0
    let target : ℚ := rstar + pi + alpha * (pi - pistar) + beta * g
    let iPrev : Option ℚ :=
      if i = 0 then data.actual_rate.getD 0 none else data.actual_rate.getD (i - 1) none
    let val : ℚ :=
      match iPrev with
      | none => (1 - rho) * target
      | some ip => rho * ip + (1 - rho) * target
    some (round4 val)
  | _, _ => none

/-- calculateTaylor (app.js lines 115-141): the implied-rate series computed
over the whole dataset, one entry per date. -/
def calculateTaylor (data : Dataset) (rho rstar alpha beta : ℚ) : List (Option ℚ) :=
  (List.range data.dates.length).map (taylorAt data rho rstar alpha beta)

theorem calculateTaylor_getD_of_lt (data : Dataset) (rho rstar alpha beta : ℚ) (i : ℕ)
    (h : i < data.dates.length) :
    (calculateTaylor data rho rstar alpha beta).getD i none =
      taylorAt data rho rstar alpha beta i := by
  unfold calculateTaylor
  rw [List.getD_eq_getElem?_getD, List.getElem?_map, List.getElem?_range h]
  rfl

theorem calculateTaylor_getD_of_ge (data : Dataset) (rho rstar alpha beta : ℚ) (i : ℕ)
    (h : data.dates.length ≤ i) :
    (calculateTaylor data rho rstar alpha beta).getD i none = none := by
  unfold calculateTaylor
  rw [List.getD_eq_getElem?_getD, List.getElem?_eq_none]
  · rfl
  · simpa using h

theorem calculateTaylor_length (data : Dataset) (rho rstar alpha beta : ℚ) :
    (calculateTaylor data rho rstar alpha beta).length = data.dates.length := by
  simp [calculateTaylor]

/-- C1: at every index with non-null inflation, output and inflation target,
the implied series holds round4 of rho * iPrev + (1 - rho) * target, where
target = rstar + pi + alpha * (pi - pistar) + beta * g, iPrev is
actual_rate at i - 1 for i > 0 and actual_rate at 0 for i = 0 (same-period
self-reference at the series start), and round4 of (1 - rho) * target when
iPrev is null. -/
theorem C1_implied_rate_formula (data : Dataset) (rho rstar alpha beta : ℚ) (i : ℕ)
    (pi g pt : ℚ)
    (hi : i < data.dates.length)
    (hpi : data.cpi.getD i none = some pi)
    (hg : data.gdp.getD i none = some g)
    (hpt : data.pistar.getD i none = some pt) :
    (calculateTaylor data rho rstar alpha beta).getD i none =
      some (round4
        (match (if i = 0 then data.actual_rate.getD 0 none
                else data.actual_rate.getD (i - 1) none) with
         | none => (1 - rho) * (rstar + pi + alpha * (pi - pt) + beta * g)
         | some ip => rho * ip + (1 - rho) * (rstar + pi + alpha * (pi - pt) + beta * g))) := by
  rw [calculateTaylor_getD_of_lt data rho rstar alpha beta i hi]
  unfold taylorAt
  rw [hpi, hg, hpt]
  rfl

/-- Literal case of C1: actualRate = [2, 5/2], inflation = [3, 3],
output = [1, 1], inflationTarget = [2, 2], rho = 1/2, rstar = 1,
alpha = 1/2, beta = 1/2: the implied value at index 0 is 7/2 = 3.5,
using actual_rate at 0 as its own lag. -/
theorem C1_implied_rate_formula_witness :
    (calculateTaylor
        ⟨["2020-01", "2020-02"], [some 2, some (5/2)], [some 3, some 3],
         [some 1, some 1], [some 2, some 2]⟩
        (1/2) 1 (1/2) (1/2)).getD 0 none = some (7/2) := by
  have h := C1_implied_rate_formula
    ⟨["2020-01", "2020-02"], [some 2, some (5/2)], [some 3, some 3],
     [some 1, some 1], [some 2, some 2]⟩
    (1/2) 1 (1/2) (1/2) 0 3 1 2 (by simp) rfl rfl rfl
  rw [h]
  norm_num [round4, jsRound]

/-- C4: rounding of implied values is half-away-toward-positive-infinity at
an exact tie in the fourth decimal (so (2m+1)/20000 rounds up to (m+1)/10000
for every integer m, negative ties rounding toward zero/up, never to even),
and every non-null implied-series value is an integer multiple of 1/10000. -/
theorem C4_round4_half_up_toward_posinf :
    (∀ m : ℤ, round4 (((2 * m + 1 : ℤ) : ℚ) / 20000) = ((m + 1 : ℤ) : ℚ) / 10000)
    ∧ (∀ (data : Dataset) (rho rstar alpha beta : ℚ) (i : ℕ) (v : ℚ),
        (calculateTaylor data rho rstar alpha beta).getD i none = some v →
        ∃ k : ℤ, v = (k : ℚ) / 10000) := by
  constructor
  · intro m
    have hm : ((2 * m + 1 : ℤ) : ℚ) / 20000 * 10000 + 1 / 2 = ((m + 1 : ℤ) : ℚ) := by
      push_cast
      ring
    rw [round4, jsRound, hm, Int.floor_intCast]
  · intro data rho rstar alpha beta i v hv
    by_cases hi : i < data.dates.length
    · rw [calculateTaylor_getD_of_lt data rho rstar alpha beta i hi] at hv
      unfold taylorAt at hv
      split at hv
      · exact ⟨_, by rw [← Option.some.inj hv]; rfl⟩
      · exact absurd hv (by simp)
    · rw [calculateTaylor_getD_of_ge data rho rstar alpha beta i (le_of_not_lt hi)] at hv
      exact absurd hv (by simp)

/-- Witness for C4: the positive tie 7/20000 rounds up to 4/10000, the
negative tie -1/20000 rounds up (toward zero) to 0/10000, and a concrete
non-null implied value is a multiple of 1/10000. -/
theorem C4_round4_half_up_toward_posinf_witness :
    round4 (((2 * (3 : ℤ) + 1 : ℤ) : ℚ) / 20000) = (((3 : ℤ) + 1 : ℤ) : ℚ) / 10000
    ∧ round4 (((2 * (-1 : ℤ) + 1 : ℤ) : ℚ) / 20000) = (((-1 : ℤ) + 1 : ℤ) : ℚ) / 10000
    ∧ ∃ k : ℤ, (0 : ℚ) = (k : ℚ) / 10000 := by
  refine ⟨C4_round4_half_up_toward_posinf.1 3, C4_round4_half_up_toward_posinf.1 (-1), ?_⟩
  exact C4_round4_half_up_toward_posinf.2
    ⟨["2020-01"], [none], [some 0], [some 0], [some 0]⟩ 0 0 0 0 0 0
    (by norm_num [calculateTaylor, taylorAt, round4, jsRound, List.range_succ])

/-- C10: at an index where inflation and output are non-null but the
inflation target is null, calculateTaylor does not return null; the null
target is coerced to 0, so the target term is
rstar + pi + alpha * pi + beta * g, fabricating a non-null value. -/
theorem C10_null_pistar_coerced_to_zero (data : Dataset) (rho rstar alpha beta : ℚ) (i : ℕ)
    (pi g : ℚ)
    (hi : i < data.dates.length)
    (hpi : data.cpi.getD i none = some pi)
    (hg : data.gdp.getD i none = some g)
    (hpt : data.pistar.getD i none = none) :
    (calculateTaylor data rho rstar alpha beta).getD i none =
      some (round4
        (match (if i = 0 then data.actual_rate.getD 0 none
                else data.actual_rate.getD (i - 1) none) with
         | none => (1 - rho) * (rstar + pi + alpha * pi + beta * g)
         | some ip => rho * ip + (1 - rho) * (rstar + pi + alpha * pi + beta * g)))
    ∧ (calculateTaylor data rho rstar alpha beta).getD i none ≠ none := by
  have h : (calculateTaylor data rho rstar alpha beta).getD i none =
      some (round4
        (match (if i = 0 then data.actual_rate.getD 0 none
                else data.actual_rate.getD (i - 1) none) with
         | none => (1 - rho) * (rstar + pi + alpha * pi + beta * g)
         | some ip => rho * ip + (1 - rho) * (rstar + pi + alpha * pi + beta * g))) := by
    rw [calculateTaylor_getD_of_lt data rho rstar alpha beta i hi]
    unfold taylorAt
    rw [hpi, hg, hpt]
    simp only [Option.getD_none, sub_zero]
  exact ⟨h, by rw [h]; exact Option.some_ne_none _⟩

/-- Witness for C10: with a null inflation target at index 0 and non-null
inflation 3 and output 1, the implied value is non-null (here 4 = round4 of
(1 - 1/2) * (1 + 3 + 3/2 + 1/2) with iPrev = 2 contributing 1). -/
theorem C10_null_pistar_coerced_to_zero_witness :
    (calculateTaylor ⟨["2020-01"], [some 2], [some 3], [some 1], [none]⟩
        (1/2) 1 (1/2) (1/2)).getD 0 none ≠ none := by
  exact (C10_null_pistar_coerced_to_zero
    ⟨["2020-01"], [some 2], [some 3], [some 1], [none]⟩
    (1/2) 1 (1/2) (1/2) 0 3 1 (by simp) rfl rfl rfl).2

/-- C3: a null inflation or output sample at index i makes the implied entry
at i null, and nulling the inflation (or output) sample at i never changes
the implied entry at any other index j. -/
theorem C3_null_propagation_and_locality :
    (∀ (data : Dataset) (rho rstar alpha beta : ℚ) (i : ℕ),
        (data.cpi.getD i none = none ∨ data.gdp.getD i none = none) →
        (calculateTaylor data rho rstar alpha beta).getD i none = none)
    ∧ (∀ (data : Dataset) (rho rstar alpha beta : ℚ) (i j : ℕ), j ≠ i →
        (calculateTaylor { data with cpi := data.cpi.set i none }
            rho rstar alpha beta).getD j none
          = (calculateTaylor data rho rstar alpha beta).getD j none)
    ∧ (∀ (data : Dataset) (rho rstar alpha beta : ℚ) (i j : ℕ), j ≠ i →
        (calculateTaylor { data with gdp := data.gdp.set i none }
            rho rstar alpha beta).getD j none
          = (calculateTaylor data rho rstar alpha beta).getD j none) := by
  refine ⟨?_, ?_, ?_⟩
  · intro data rho rstar alpha beta i h
    by_cases hi : i < data.dates.length
    · rw [calculateTaylor_getD_of_lt data rho rstar alpha beta i hi]
      unfold taylorAt
      rcases h with h | h
      · rw [h]
      · rw [h]
        rcases data.cpi.getD i none with _ | pi <;> rfl
    · exact calculateTaylor_getD_of_ge data rho rstar alpha beta i (le_of_not_lt hi)
  · intro data rho rstar alpha beta i j hj
    by_cases hlt : j < data.dates.length
    · rw [calculateTaylor_getD_of_lt { data with cpi := data.cpi.set i none }
          rho rstar alpha beta j hlt,
        calculateTaylor_getD_of_lt data rho rstar alpha beta j hlt]
      have hc : (data.cpi.set i none).getD j none = data.cpi.getD j none := by
        rw [List.getD_eq_getElem?_getD, List.getD_eq_getElem?_getD,
          List.getElem?_set_ne (Ne.symm hj)]
      unfold taylorAt
      dsimp only
      rw [hc]
    · rw [calculateTaylor_getD_of_ge { data with cpi := data.cpi.set i none }
          rho rstar alpha beta j (le_of_not_lt hlt),
        calculateTaylor_getD_of_ge data rho rstar alpha beta j (le_of_not_lt hlt)]
  · intro data rho rstar alpha beta i j hj
    by_cases hlt : j < data.dates.length
    · rw [calculateTaylor_getD_of_lt { data with gdp := data.gdp.set i none }
          rho rstar alpha beta j hlt,
        calculateTaylor_getD_of_lt data rho rstar alpha beta j hlt]
      have hc : (data.gdp.set i none).getD j none = data.gdp.getD j none := by
        rw [List.getD_eq_getElem?_getD, List.getD_eq_getElem?_getD,
          List.getElem?_set_ne (Ne.symm hj)]
      unfold taylorAt
      dsimp only
      rw [hc]
    · rw [calculateTaylor_getD_of_ge { data with gdp := data.gdp.set i none }
          rho rstar alpha beta j (le_of_not_lt hlt),
        calculateTaylor_getD_of_ge data rho rstar alpha beta j (le_of_not_lt hlt)]

/-- Witness for C3: a null inflation sample at index 0 yields a null implied
entry there, and nulling inflation (or output) at index 0 leaves the implied
entry at index 1 of a two-month dataset unchanged. -/
theorem C3_null_propagation_and_locality_witness :
    (calculateTaylor ⟨["2020-01"], [some 2], [none], [some 1], [some 2]⟩
        1 1 1 1).getD 0 none = none
    ∧ (calculateTaylor
        { (⟨["2020-01", "2020-02"], [some 2, some 2], [some 3, some 3],
            [some 1, some 1], [some 2, some 2]⟩ : Dataset) with
          cpi := ([some 3, some 3] : List (Option ℚ)).set 0 none }
        1 1 1 1).getD 1 none
      = (calculateTaylor
          ⟨["2020-01", "2020-02"], [some 2, some 2], [some 3, some 3],
           [some 1, some 1], [some 2, some 2]⟩ 1 1 1 1).getD 1 none
    ∧ (calculateTaylor
        { (⟨["2020-01", "2020-02"], [some 2, some 2], [some 3, some 3],
            [some 1, some 1], [some 2, some 2]⟩ : Dataset) with
          gdp := ([some 1, some 1] : List (Option ℚ)).set 0 none }
        1 1 1 1).getD 1 none
      = (calculateTaylor
          ⟨["2020-01", "2020-02"], [some 2, some 2], [some 3, some 3],
           [some 1, some 1], [some 2, some 2]⟩ 1 1 1 1).getD 1 none := by
  refine ⟨?_, ?_, ?_⟩
  · exact C3_null_propagation_and_locality.1
      ⟨["2020-01"], [some 2], [none], [some 1], [some 2]⟩ 1 1 1 1 0 (Or.inl rfl)
  · exact C3_null_propagation_and_locality.2.1
      ⟨["2020-01", "2020-02"], [some 2, some 2], [some 3, some 3],
       [some 1, some 1], [some 2, some 2]⟩ 1 1 1 1 0 1 (by decide)
  · exact C3_null_propagation_and_locality.2.2
      ⟨["2020-01", "2020-02"], [some 2, some 2], [some 3, some 3],
       [some 1, some 1], [some 2, some 2]⟩ 1 1 1 1 0 1 (by decide)

/-- Lexicographic comparison of character lists by code point, the order JS
uses when comparing strings with the relational operators. -/
def charListLe : List Char → List Char → Bool
  | [], _ => true
  | _ :: _, [] => false
  | a :: as, b :: bs =>
    if a.toNat < b.toNat then true
    else if b.toNat < a.toNat then false
    else charListLe as bs

/-- JS string comparison d >= f, d <= t used by filterRaw (app.js line 101). -/
def strLe (a b : String) : Bool := charListLe a.data b.data

/-- Removal of the first occurrence of a character, the effect of the JS
String.replace with a plain-string pattern. -/
def removeFirst (c : Char) : List Char → List Char
  | [] => []
  | x :: xs => if x = c then xs else x :: removeFirst c xs

/-- Period normalization date.replace with the dash (app.js lines 97, 100):
the first dash is removed, turning "YYYY-MM" into a 6-digit string. -/
def stripSep (s : String) : String := String.mk (removeFirst (Char.ofNat 45) s.data)

/-- filterRaw (app.js lines 96-107): keeps the date/value pairs whose
normalized date lies between the normalized bounds, in order. -/
def filterRaw (dates : List String) (values : List (Option ℚ)) (f t : String) :
    List String × List (Option ℚ) :=
  let fn := stripSep f
  let tn := stripSep t
  (List.range dates.length).foldl
    (fun acc i =>
      let d := stripSep (dates.getD i "")
      if strLe fn d && strLe d tn then (acc.1 ++ [dates.getD i ""], acc.2 ++ [values.getD i none])
      else acc)
    ([], [])

theorem foldl_filter_pair (p : ℕ → Bool) (f1 : ℕ → String) (f2 : ℕ → Option ℚ) :
    ∀ (l : List ℕ) (a1 : List String) (a2 : List (Option ℚ)),
      l.foldl (fun acc i => if p i then (acc.1 ++ [f1 i], acc.2 ++ [f2 i]) else acc) (a1, a2)
        = (a1 ++ (l.filter p).map f1, a2 ++ (l.filter p).map f2) := by
  intro l
  induction l with
  | nil => intro a1 a2; simp
  | cons x xs ih =>
    intro a1 a2
    by_cases hp : p x
    · simp only [List.foldl_cons, hp, if_true, List.filter_cons_of_pos hp, List.map_cons]
      rw [ih]
      simp
    · simp only [List.foldl_cons, hp, if_false, Bool.false_eq_true,
        List.filter_cons_of_neg (by simpa using hp), List.map_cons]
      rw [ih]

/-- C5: filterRaw keeps exactly the indices whose normalized period lies
between the normalized bounds inclusive (original order preserved), returns
parallel arrays of equal length, and on periods 2020-01..2020-03 with both
bounds 2020-02 retains exactly the 2020-02 entry and its value. -/
theorem C5_filterRaw_characterization :
    (∀ (dates : List String) (values : List (Option ℚ)) (f t : String),
      filterRaw dates values f t =
        (((List.range dates.length).filter fun i =>
            strLe (stripSep f) (stripSep (dates.getD i "")) &&
              strLe (stripSep (dates.getD i "")) (stripSep t)).map
          (fun i => dates.getD i ""),
         ((List.range dates.length).filter fun i =>
            strLe (stripSep f) (stripSep (dates.getD i "")) &&
              strLe (stripSep (dates.getD i "")) (stripSep t)).map
          (fun i => values.getD i none)))
    ∧ (∀ (dates : List String) (values : List (Option ℚ)) (f t : String),
        (filterRaw dates values f t).1.length = (filterRaw dates values f t).2.length)
    ∧ filterRaw ["2020-01", "2020-02", "2020-03"] [some 1, some 2, some 3]
        "2020-02" "2020-02" = (["2020-02"], [some 2]) := by
  have hchar : ∀ (dates : List String) (values : List (Option ℚ)) (f t : String),
      filterRaw dates values f t =
        (((List.range dates.length).filter fun i =>
            strLe (stripSep f) (stripSep (dates.getD i "")) &&
              strLe (stripSep (dates.getD i "")) (stripSep t)).map
          (fun i => dates.getD i ""),
         ((List.range dates.length).filter fun i =>
            strLe (stripSep f) (stripSep (dates.getD i "")) &&
              strLe (stripSep (dates.getD i "")) (stripSep t)).map
          (fun i => values.getD i none)) := by
    intro dates values f t
    unfold filterRaw
    rw [foldl_filter_pair
      (fun i => strLe (stripSep f) (stripSep (dates.getD i "")) &&
        strLe (stripSep (dates.getD i "")) (stripSep t))
      (fun i => dates.getD i "") (fun i => values.getD i none)
      (List.range dates.length) [] []]
    simp
  refine ⟨hchar, ?_, by decide⟩
  intro dates values f t
  rw [hchar]
  simp

/-- Pairs of jointly non-null observations (app.js lines 148-150). -/
def pairsOf (actual implied : List (Option ℚ)) : List (ℚ × ℚ) :=
  actual.enum.filterMap fun ia =>
    match ia.2, implied.getD ia.1 none with
    | some a, some b => some (a, b)
    | _, _ => none

/-- meanA (app.js line 161). -/
def meanFst (ps : List (ℚ × ℚ)) : ℚ := (ps.map fun p => p.1).sum / ps.length

/-- meanB (app.js line 162). -/
def meanSnd (ps : List (ℚ × ℚ)) : ℚ := (ps.map fun p => p.2).sum / ps.length

/-- Unnormalized sum of squared deviations of the first series, the radicand
of stdA (app.js line 164). -/
def ssFst (ps : List (ℚ × ℚ)) : ℚ := (ps.map fun p => (p.1 - meanFst ps) ^ 2).sum

/-- Unnormalized sum of squared deviations of the second series, the radicand
of stdB (app.js line 165). -/
def ssSnd (ps : List (ℚ × ℚ)) : ℚ := (ps.map fun p => (p.2 - meanSnd ps) ^ 2).sum

/-- Unnormalized deviation cross-sum cov (app.js line 163). -/
def covSum (ps : List (ℚ × ℚ)) : ℚ :=
  (ps.map fun p => (p.1 - meanFst ps) * (p.2 - meanSnd ps)).sum

/-- Result record of computeStats (app.js lines 168-173). -/
structure FitStats where
  rmse : Option ℝ
  mae : Option ℝ
  correlation : Option ℝ
  mean_deviation : Option ℝ

/-- computeStats (app.js lines 147-174). -/
noncomputable def computeStats (actual implied : List (Option ℚ)) : FitStats :=
  let pairs := pairsOf actual implied
  if pairs.length < 2 then ⟨none, none, none, none⟩
  else
    let n : ℚ := (pairs.length : ℚ)
    let diffs := pairs.map fun p => p.1 - p.2
    let rmse : ℝ := Real.sqrt (((diffs.map fun d => d * d).sum / n : ℚ) : ℝ)
    let mae : ℚ := (diffs.map fun d => |d|).sum / n
    let meanDev : ℚ := diffs.sum / n
    let stdA : ℝ := Real.sqrt ((ssFst pairs : ℚ) : ℝ)
    let stdB : ℝ := Real.sqrt ((ssSnd pairs : ℚ) : ℝ)
    let corr : Option ℝ :=
      if 0 < stdA ∧ 0 < stdB then some ((covSum pairs : ℝ) / (stdA * stdB)) else none
    { rmse := some (round3R rmse)
      mae := some (round3R (mae : ℝ))
      correlation := corr.map round3R
      mean_deviation := some (round3R (meanDev : ℝ)) }

theorem round3R_intCast (m : ℤ) : round3R (m : ℝ) = (m : ℝ) := by
  rw [round3R, jsRoundR]
  have h1 : ((m : ℝ) * 1000 + 1 / 2) = ((m * 1000 : ℤ) : ℝ) + 1 / 2 := by push_cast; ring
  rw [h1, Int.floor_int_add]
  have h2 : ⌊(1 / 2 : ℝ)⌋ = 0 := by norm_num
  rw [h2]
  push_cast
  ring

/-- C6: with at least two jointly non-null pairs, computeStats returns
rmse = round3 of the root of the mean squared difference, mae = round3 of
the mean absolute difference, meanDeviation = round3 of the mean difference
(differences actual minus implied), and, when both unnormalized deviation
sums are positive, correlation = round3 of the Pearson coefficient built
from the unnormalized sums; the literal shift case actual = [1, 2, 3],
implied = [2, 3, 4] gives rmse = 1, mae = 1, correlation = 1,
meanDeviation = -1. -/
theorem C6_computeStats_formulas :
    (∀ (actual implied : List (Option ℚ)), 2 ≤ (pairsOf actual implied).length →
      (computeStats actual implied).rmse
          = some (round3R (Real.sqrt
              (((((pairsOf actual implied).map fun p => (p.1 - p.2) * (p.1 - p.2)).sum
                / ((pairsOf actual implied).length : ℚ) : ℚ) : ℝ))))
        ∧ (computeStats actual implied).mae
          = some (round3R (((((pairsOf actual implied).map fun p => |p.1 - p.2|).sum
                / ((pairsOf actual implied).length : ℚ) : ℚ) : ℝ)))
        ∧ (computeStats actual implied).mean_deviation
          = some (round3R (((((pairsOf actual implied).map fun p => p.1 - p.2).sum
                / ((pairsOf actual implied).length : ℚ) : ℚ) : ℝ)))
        ∧ (0 < ssFst (pairsOf actual implied) → 0 < ssSnd (pairsOf actual implied) →
            (computeStats actual implied).correlation
              = some (round3R ((covSum (pairsOf actual implied) : ℝ)
                  / (Real.sqrt ((ssFst (pairsOf actual implied) : ℚ) : ℝ)
                     * Real.sqrt ((ssSnd (pairsOf actual implied) : ℚ) : ℝ))))))
    ∧ computeStats [some 1, some 2, some 3] [some 2, some 3, some 4]
        = ⟨some 1, some 1, some 1, some (-1)⟩ := by
  constructor
  · intro actual implied h2
    have hn : ¬ (pairsOf actual implied).length < 2 := by omega
    refine ⟨?_, ?_, ?_, ?_⟩
    · simp only [computeStats, hn, if_false, List.map_map, Function.comp_def]
    · simp only [computeStats, hn, if_false, List.map_map, Function.comp_def]
    · simp only [computeStats, hn, if_false, List.map_map, Function.comp_def]
    · intro hA hB
      have hA2 : (0 : ℝ) < Real.sqrt ((ssFst (pairsOf actual implied) : ℚ) : ℝ) :=
        Real.sqrt_pos.mpr (by exact_mod_cast hA)
      have hB2 : (0 : ℝ) < Real.sqrt ((ssSnd (pairsOf actual implied) : ℚ) : ℝ) :=
        Real.sqrt_pos.mpr (by exact_mod_cast hB)
      simp only [computeStats, hn, if_false]
      rw [if_pos ⟨hA2, hB2⟩]
      simp only [Option.map_some']
  · have hp : pairsOf [some 1, some 2, some 3] [some 2, some 3, some 4]
        = [(1, 2), (2, 3), (3, 4)] := by decide
    have hssA : ssFst [((1 : ℚ), (2 : ℚ)), (2, 3), (3, 4)] = 2 := by
      norm_num [ssFst, meanFst]
    have hssB : ssSnd [((1 : ℚ), (2 : ℚ)), (2, 3), (3, 4)] = 2 := by
      norm_num [ssSnd, meanSnd]
    have hcov : covSum [((1 : ℚ), (2 : ℚ)), (2, 3), (3, 4)] = 2 := by
      norm_num [covSum, meanFst, meanSnd]
    have hone : round3R ((1 : ℝ)) = 1 := by
      have := round3R_intCast 1
      simpa using this
    have hmone : round3R ((-1 : ℝ)) = -1 := by
      have := round3R_intCast (-1)
      simpa using this
    simp only [computeStats, hp]
    rw [if_neg (by norm_num)]
    rw [hssA, hssB, hcov]
    have hsq2 : (0 : ℝ) < Real.sqrt (((2 : ℚ) : ℝ)) := Real.sqrt_pos.mpr (by norm_num)
    rw [if_pos ⟨hsq2, hsq2⟩]
    have hmul : Real.sqrt (((2 : ℚ) : ℝ)) * Real.sqrt (((2 : ℚ) : ℝ)) = ((2 : ℚ) : ℝ) :=
      Real.mul_self_sqrt (by norm_num)
    have hcorr : ((2 : ℚ) : ℝ) / (Real.sqrt (((2 : ℚ) : ℝ)) * Real.sqrt (((2 : ℚ) : ℝ))) = 1 := by
      rw [hmul]
      norm_num
    simp only [FitStats.mk.injEq, Option.map_some']
    refine ⟨?_, ?_, ?_, ?_⟩
    · norm_num [Real.sqrt_one, hone]
    · norm_num [hone]
    · rw [hcorr, hone]
    · norm_num [hmone]

/-- Witness for C6 general formulas at the literal input: the rmse field of
computeStats on the shift case equals the rounded root mean squared
difference formula instantiated there. -/
theorem C6_computeStats_formulas_witness :
    (computeStats [some 1, some 2, some 3] [some 2, some 3, some 4]).rmse
      = some (round3R (Real.sqrt
          (((((pairsOf [some 1, some 2, some 3] [some 2, some 3, some 4]).map
              fun p => (p.1 - p.2) * (p.1 - p.2)).sum
            / ((pairsOf [some 1, some 2, some 3] [some 2, some 3, some 4]).length : ℚ) : ℚ) : ℝ)))) :=
  (C6_computeStats_formulas.1 [some 1, some 2, some 3] [some 2, some 3, some 4]
    (by decide)).1

/-- C7: with fewer than two jointly non-null pairs every field of
computeStats is null, and with at least two pairs but a zero unnormalized
deviation sum on either side the correlation is null while rmse, mae and
meanDeviation stay non-null. -/
theorem C7_stats_null_conditions :
    (∀ (actual implied : List (Option ℚ)), (pairsOf actual implied).length < 2 →
        computeStats actual implied = ⟨none, none, none, none⟩)
    ∧ (∀ (actual implied : List (Option ℚ)), 2 ≤ (pairsOf actual implied).length →
        (ssFst (pairsOf actual implied) = 0 ∨ ssSnd (pairsOf actual implied) = 0) →
        (computeStats actual implied).correlation = none
        ∧ (computeStats actual implied).rmse ≠ none
        ∧ (computeStats actual implied).mae ≠ none
        ∧ (computeStats actual implied).mean_deviation ≠ none) := by
  constructor
  · intro actual implied h
    simp only [computeStats, h, if_true]
  · intro actual implied h2 hss
    have hn : ¬ (pairsOf actual implied).length < 2 := by omega
    have hcond : ¬ ((0 : ℝ) < Real.sqrt ((ssFst (pairsOf actual implied) : ℚ) : ℝ)
        ∧ (0 : ℝ) < Real.sqrt ((ssSnd (pairsOf actual implied) : ℚ) : ℝ)) := by
      rcases hss with h | h
      · intro hc
        rw [h] at hc
        simp at hc
      · intro hc
        rw [h] at hc
        simp at hc
    refine ⟨?_, ?_, ?_, ?_⟩
    · simp only [computeStats, hn, if_false]
      rw [if_neg hcond]
      simp
    · simp only [computeStats, hn, if_false]
      simp
    · simp only [computeStats, hn, if_false]
      simp
    · simp only [computeStats, hn, if_false]
      simp

/-- Witness for C7: a single pair gives all-null statistics, and a
zero-variance first series with two pairs gives a null correlation while the
other three fields are non-null. -/
theorem C7_stats_null_conditions_witness :
    computeStats [some 1] [some 1] = ⟨none, none, none, none⟩
    ∧ ((computeStats [some 1, some 1] [some 0, some 1]).correlation = none
        ∧ (computeStats [some 1, some 1] [some 0, some 1]).rmse ≠ none
        ∧ (computeStats [some 1, some 1] [some 0, some 1]).mae ≠ none
        ∧ (computeStats [some 1, some 1] [some 0, some 1]).mean_deviation ≠ none) := by
  constructor
  · exact C7_stats_null_conditions.1 [some 1] [some 1] (by decide)
  · refine C7_stats_null_conditions.2 [some 1, some 1] [some 0, some 1] (by decide) ?_
    left
    have hp : pairsOf [some 1, some 1] [some 0, some 1] = [(1, 0), (1, 1)] := by decide
    rw [hp]
    norm_num [ssFst, meanFst]

/-- Result of one recompute of the main chart (app.js lines 452-480):
implied series over the full dataset, windowed actual and implied series,
and the fit statistics of the windowed pair. -/
structure TaylorUpdate where
  implied_full : List (Option ℚ)
  actualF : List String × List (Option ℚ)
  impliedF : List String × List (Option ℚ)
  stats : FitStats

/-- Computational core of updateTaylorChart (app.js lines 452-480): the
recurrence runs on the whole dataset, windowing is applied afterwards. -/
noncomputable def updateTaylorChart (raw : Dataset) (rho rstar alpha beta : ℚ)
    (f t : String) : TaylorUpdate :=
  let allImplied := calculateTaylor raw rho rstar alpha beta
  let actualF := filterRaw raw.dates raw.actual_rate f t
  let impliedF := filterRaw raw.dates allImplied f t
  ⟨allImplied, actualF, impliedF, computeStats actualF.2 impliedF.2⟩

/-- C2: the full implied series produced inside a recompute does not depend
on the selected window: two runs with different windows share it, it equals
calculateTaylor on the whole dataset, and the windowed implied series is the
window filter applied after that full computation. -/
theorem C2_window_invariance :
    ∀ (raw : Dataset) (rho rstar alpha beta : ℚ) (f1 t1 f2 t2 : String),
      (updateTaylorChart raw rho rstar alpha beta f1 t1).implied_full
        = (updateTaylorChart raw rho rstar alpha beta f2 t2).implied_full
      ∧ (updateTaylorChart raw rho rstar alpha beta f1 t1).implied_full
        = calculateTaylor raw rho rstar alpha beta
      ∧ (updateTaylorChart raw rho rstar alpha beta f1 t1).impliedF
        = filterRaw raw.dates (calculateTaylor raw rho rstar alpha beta) f1 t1 := by
  intro raw rho rstar alpha beta f1 t1 f2 t2
  exact ⟨rfl, rfl, rfl⟩

/-- State of the debounce scheduler: the pending timer deadline
(state.debounceTimer), the parameter/window values a recompute would read
when the timer fires, and the log of recomputes that have fired. -/
structure SchedState (V : Type) where
  pending : Option ℕ
  current : V
  fires : List (ℕ × V)

/-- One triggering interaction at a time carrying the value its handler
writes: any timer whose deadline has passed is delivered first, then
scheduleUpdate (app.js lines 580-583) runs clearTimeout on the pending
run and setTimeout re-arms it one quiet period after the trigger. -/
def schedTrigger {V : Type} (D : ℕ) (s : SchedState V) (e : ℕ × V) : SchedState V :=
  let s1 : SchedState V :=
    match s.pending with
    | some p =>
      if p ≤ e.1 then ⟨none, s.current, s.fires ++ [(p, s.current)]⟩
      else s
    | none => s
  ⟨some (e.1 + D), e.2, s1.fires⟩

/-- Event-loop run of a trigger sequence from an initial value: after the
last trigger the remaining pending timer fires with the values current at
that moment.  The result is the list of recomputes (fire time, values read). -/
def runSched {V : Type} (D : ℕ) (v0 : V) (events : List (ℕ × V)) : List (ℕ × V) :=
  let s := events.foldl (schedTrigger D) ⟨none, v0, []⟩
  match s.pending with
  | some p => s.fires ++ [(p, s.current)]
  | none => s.fires

theorem sched_foldl_chain {V : Type} (D : ℕ) :
    ∀ (es : List (ℕ × V)) (e : ℕ × V) (fires : List (ℕ × V)),
      List.Chain' (fun a b => a.1 ≤ b.1 ∧ b.1 < a.1 + D) (e :: es) →
      es.foldl (schedTrigger D) ⟨some (e.1 + D), e.2, fires⟩
        = ⟨some ((es.getLastD e).1 + D), (es.getLastD e).2, fires⟩ := by
  intro es
  induction es with
  | nil => intro e fires _; simp
  | cons b bs ih =>
    intro e fires h
    have hhead : e.1 ≤ b.1 ∧ b.1 < e.1 + D := (List.chain'_cons.mp h).1
    have htail : List.Chain' (fun a b => a.1 ≤ b.1 ∧ b.1 < a.1 + D) (b :: bs) :=
      (List.chain'_cons.mp h).2
    rw [List.foldl_cons]
    have hcond : ¬ (e.1 + D ≤ b.1) := by omega
    have hstep : schedTrigger D ⟨some (e.1 + D), e.2, fires⟩ b
        = ⟨some (b.1 + D), b.2, fires⟩ := by
      unfold schedTrigger
      dsimp only
      rw [if_neg hcond]
    rw [hstep, ih b fires htail, List.getLastD_cons]

/-- C8: when each of N triggers arrives before the quiet period of its
predecessor elapses, exactly one recompute fires, one quiet period after the
last trigger, and it reads exactly the values written by that last trigger;
the earlier triggers cause no recompute. -/
theorem C8_debounce_last_write_wins (V : Type) (D : ℕ) (v0 : V) (e : ℕ × V)
    (es : List (ℕ × V))
    (h : List.Chain' (fun a b => a.1 ≤ b.1 ∧ b.1 < a.1 + D) (e :: es)) :
    runSched D v0 (e :: es) = [((es.getLastD e).1 + D, (es.getLastD e).2)] := by
  unfold runSched
  rw [List.foldl_cons]
  have h0 : schedTrigger D (⟨none, v0, []⟩ : SchedState V) e = ⟨some (e.1 + D), e.2, []⟩ := rfl
  rw [h0, sched_foldl_chain D es e [] h]
  rfl

/-- Witness for C8: three triggers at times 0, 100, 200 with quiet period
280 and written values 1, 2, 3 produce the single recompute (480, 3). -/
theorem C8_debounce_last_write_wins_witness :
    runSched 280 (0 : ℕ) [(0, 1), (100, 2), (200, 3)] = [(480, 3)] := by
  have h := C8_debounce_last_write_wins ℕ 280 0 (0, 1) [(100, 2), (200, 3)]
    (by norm_num [List.chain'_cons])
  simpa using h

/-- Forward declutter pass tail (app.js lines 226-230): a label closer than
the minimum gap to its already adjusted predecessor is pushed down to
exactly the gap below it. -/
def forwardPassGo (G prev : ℚ) : List ℚ → List ℚ
  | [] => []
  | y :: ys =>
    if y - prev < G then (prev + G) :: forwardPassGo G (prev + G) ys
    else y :: forwardPassGo G y ys

/-- Forward declutter pass over the sorted candidates: the first label is
kept in place. -/
def forwardPass (G : ℚ) : List ℚ → List ℚ
  | [] => []
  | y :: ys => y :: forwardPassGo G y ys

/-- Backward clamp pass (app.js lines 232-237) on the reversed label list:
a label below the bottom limit B is clamped to B and its predecessor pulled
up to at most B minus the gap; the loop then continues toward the top. -/
def backAux (G B : ℚ) : List ℚ → List ℚ
  | [] => []
  | [y] => if B < y then [B] else [y]
  | y :: p :: rest =>
    if B < y then B :: backAux G B (min p (B - G) :: rest)
    else y :: backAux G B (p :: rest)
termination_by l => l.length

/-- Backward clamp pass in display order. -/
def backwardPass (G B : ℚ) (l : List ℚ) : List ℚ := (backAux G B l.reverse).reverse

/-- Full declutter of candidate label coordinates: stable ascending sort,
forward gap pass, backward clamp pass (app.js lines 225-237). -/
def declutter (G B : ℚ) (cands : List ℚ) : List ℚ :=
  backwardPass G B (forwardPass G (cands.insertionSort (· ≤ ·)))

theorem backAux_all_le (G B : ℚ) (l : List ℚ) : ∀ y ∈ backAux G B l, y ≤ B := by
  induction l using backAux.induct G B with
  | case1 => simp [backAux]
  | case2 y hy =>
    intro z hz
    rw [backAux, if_pos hy, List.mem_singleton] at hz
    subst hz
    exact le_rfl
  | case3 y hy =>
    intro z hz
    rw [backAux, if_neg hy, List.mem_singleton] at hz
    subst hz
    exact not_lt.mp hy
  | case4 y p rest hy ih =>
    intro z hz
    rw [backAux, if_pos hy] at hz
    rcases List.mem_cons.mp hz with h | h
    · subst h
      exact le_rfl
    · exact ih z h
  | case5 y p rest hy ih =>
    intro z hz
    rw [backAux, if_neg hy] at hz
    rcases List.mem_cons.mp hz with h | h
    · subst h
      exact not_lt.mp hy
    · exact ih z h

theorem backAux_id_of_all_le (G B : ℚ) (l : List ℚ) (h : ∀ y ∈ l, y ≤ B) :
    backAux G B l = l := by
  induction l using backAux.induct G B with
  | case1 => simp [backAux]
  | case2 y hy =>
    exact absurd (h y (by simp)) (by simpa using hy)
  | case3 y hy => simp [backAux, if_neg hy]
  | case4 y p rest hy ih =>
    exact absurd (h y (by simp)) (by simpa using hy)
  | case5 y p rest hy ih =>
    rw [backAux, if_neg hy, ih]
    intro z hz
    exact h z (List.mem_cons_of_mem y hz)

theorem forwardPassGo_chain (G : ℚ) :
    ∀ (l : List ℚ) (prev : ℚ),
      List.Chain' (fun a b => a + G ≤ b) (prev :: forwardPassGo G prev l) := by
  intro l
  induction l with
  | nil => intro prev; simp [forwardPassGo]
  | cons y ys ih =>
    intro prev
    rw [forwardPassGo]
    by_cases hc : y - prev < G
    · rw [if_pos hc]
      exact List.chain'_cons.mpr ⟨le_refl _, ih (prev + G)⟩
    · rw [if_neg hc]
      exact List.chain'_cons.mpr ⟨by linarith [not_lt.mp hc], ih y⟩

theorem forwardPass_chain (G : ℚ) (l : List ℚ) :
    List.Chain' (fun a b => a + G ≤ b) (forwardPass G l) := by
  cases l with
  | nil => simp [forwardPass]
  | cons y ys =>
    rw [forwardPass]
    exact forwardPassGo_chain G ys y

theorem declutter_eq_forward_of_all_le (G B : ℚ) (cands : List ℚ)
    (h : ∀ y ∈ forwardPass G (cands.insertionSort (· ≤ ·)), y ≤ B) :
    declutter G B cands = forwardPass G (cands.insertionSort (· ≤ ·)) := by
  unfold declutter backwardPass
  rw [backAux_id_of_all_le G B _ (by
    intro y hy
    exact h y (List.mem_reverse.mp hy)), List.reverse_reverse]

theorem declutter_101_102_103 : declutter 20 100 [101, 102, 103] = [100, 80, 100] := by
  have hs : (([101, 102, 103] : List ℚ).insertionSort (· ≤ ·)) = [101, 102, 103] := by
    norm_num [List.insertionSort, List.orderedInsert]
  have hf : forwardPass 20 ([101, 102, 103] : List ℚ) = [101, 121, 141] := by
    norm_num [forwardPass, forwardPassGo]
  have hb : backAux 20 100 ([141, 121, 101] : List ℚ) = [100, 80, 100] := by
    norm_num [backAux, min_def]
  unfold declutter backwardPass
  rw [hs, hf]
  norm_num [hb]

/-- C9 counterexample: with minimum gap 20 and bottom clamp limit 100 (a
plot whose bottom edge is 108 and pill height 16), the candidates 101, 102
and 103 all lie inside the plotted vertical extent from 0 to 108, three
labels fit between the top edge 0 and the clamp limit (2 gaps of 20 within
100 of space, so labels do not outnumber vertical space), yet the resolved
positions are [100, 80, 100]: the first and third labels coincide, so two
resolved labels are closer than the minimum gap even though no exception of
the claim applies, and the middle label sits above its predecessor. -/
theorem C9_declutter_min_gap_guarantee_false :
    declutter 20 100 [101, 102, 103] = [100, 80, 100]
    ∧ (∀ y ∈ ([101, 102, 103] : List ℚ), 0 ≤ y ∧ y ≤ 108)
    ∧ (2 * 20 ≤ (100 : ℚ) - 0)
    ∧ ¬ (20 ≤ |(declutter 20 100 [101, 102, 103]).getD 2 0
          - (declutter 20 100 [101, 102, 103]).getD 0 0|) := by
  refine ⟨declutter_101_102_103, ?_, by norm_num, ?_⟩
  · intro y hy
    simp only [List.mem_cons, List.not_mem_nil, or_false] at hy
    rcases hy with h | h | h <;> norm_num [h]
  · rw [declutter_101_102_103]
    norm_num

/-- C9 (amended): after the forward and backward passes no label extends
past the plot's bottom clamp limit, the forward pass alone leaves
consecutive labels at least the minimum gap apart, and whenever the forward
pass leaves every label at or above the bottom limit the backward pass
changes nothing, so the minimum-gap guarantee holds; candidates 100 and 105
with gap 20 resolve to 100 and 120.  When a clamp does occur, labels that
were clamped or pulled up may end closer than the minimum gap (even
coincident) even though vertical space would suffice. -/
theorem C9_declutter_amended :
    (∀ (G B : ℚ) (cands : List ℚ), ∀ y ∈ declutter G B cands, y ≤ B)
    ∧ (∀ (G : ℚ) (l : List ℚ), List.Chain' (fun a b => a + G ≤ b) (forwardPass G l))
    ∧ (∀ (G B : ℚ) (cands : List ℚ),
        (∀ y ∈ forwardPass G (cands.insertionSort (· ≤ ·)), y ≤ B) →
        declutter G B cands = forwardPass G (cands.insertionSort (· ≤ ·))
        ∧ List.Chain' (fun a b => a + G ≤ b) (declutter G B cands))
    ∧ declutter 20 1000 [100, 105] = [100, 120] := by
  have hall : ∀ (G B : ℚ) (cands : List ℚ), ∀ y ∈ declutter G B cands, y ≤ B := by
    intro G B cands y hy
    unfold declutter backwardPass at hy
    exact backAux_all_le G B _ y (List.mem_reverse.mp hy)
  have hnoclamp : ∀ (G B : ℚ) (cands : List ℚ),
      (∀ y ∈ forwardPass G (cands.insertionSort (· ≤ ·)), y ≤ B) →
      declutter G B cands = forwardPass G (cands.insertionSort (· ≤ ·))
      ∧ List.Chain' (fun a b => a + G ≤ b) (declutter G B cands) := by
    intro G B cands h
    have heq := declutter_eq_forward_of_all_le G B cands h
    exact ⟨heq, heq ▸ forwardPass_chain G _⟩
  refine ⟨hall, fun G l => forwardPass_chain G l, hnoclamp, ?_⟩
  have hs : (([100, 105] : List ℚ).insertionSort (· ≤ ·)) = [100, 105] := by
    norm_num [List.insertionSort, List.orderedInsert]
  have hf : forwardPass 20 ([100, 105] : List ℚ) = [100, 120] := by
    norm_num [forwardPass, forwardPassGo]
  have h := (hnoclamp 20 1000 [100, 105] (by
    rw [hs, hf]
    intro y hy
    simp only [List.mem_cons, List.not_mem_nil, or_false] at hy
    rcases hy with h | h <;> norm_num [h])).1
  rw [h, hs, hf]

/-- Witness for C9 (amended): with bottom limit 500 no clamp occurs on
candidates 100 and 105, so the declutter result is exactly the forward pass
and consecutive labels keep the minimum gap 20. -/
theorem C9_declutter_amended_witness :
    declutter 20 500 [100, 105] = forwardPass 20 (([100, 105] : List ℚ).insertionSort (· ≤ ·))
    ∧ List.Chain' (fun a b => a + 20 ≤ b) (declutter 20 500 [100, 105]) := by
  refine C9_declutter_amended.2.2.1 20 500 [100, 105] ?_
  have hs : (([100, 105] : List ℚ).insertionSort (· ≤ ·)) = [100, 105] := by
    norm_num [List.insertionSort, List.orderedInsert]
  have hf : forwardPass 20 ([100, 105] : List ℚ) = [100, 120] := by
    norm_num [forwardPass, forwardPassGo]
  rw [hs, hf]
  intro y hy
  simp only [List.mem_cons, List.not_mem_nil, or_false] at hy
  rcases hy with h | h <;> norm_num [h]

end CnbTaylor
